import Mathlib

/-!
Shallow embedding of the Qame-of-Life repository.

Two source files are modelled:
* `src/main.py` — a pygame shell with a classical Conway engine
  (`update_classical`), a quantum-inspired amplitude engine (`update_quantum`),
  pattern stamping (`place_pattern`) and a textual mode selector in `main`.
  Grids are numpy arrays; they are modelled as functions `ℕ → ℕ → _` together
  with explicit `rows`/`cols` dimensions.  Numpy's slice `a[r-1:r+2]` is
  modelled exactly: a negative lower bound (`-1`, arising when `r = 0`)
  resolves to `n - 1`, and both bounds clamp to the array length.
* `src/Classical_game_of_life_using_tkinter/main.py` — a tkinter shell whose
  board is a list of lists of 0/1 values, with an explicit bounds-checking
  neighbor counter (`count_alive_neighbors`) and rule application
  (`calculate_next_generation`).

Floating-point arithmetic of the quantum engine is modelled by exact real
arithmetic (`ℝ`/`ℂ`); complex amplitudes are `ℂ` and `np.abs(z)**2` is
`Complex.abs z ^ 2`.
-/

open scoped Classical

/-- Rendering category of a cell, one per color used by the source
(`col_about_to_die`, `col_alive`, `col_background`). -/
inductive CellCategory where
  | aboutToDie
  | alive
  | background
  deriving DecidableEq

/-- Resolved start of the python slice `a[i-1 : i+2]` on an axis of length `n`.
For `i = 0` the lower bound is the python integer `-1`, which numpy resolves
to `n - 1`; otherwise a nonnegative bound clamps to the length. -/
def pyLo (i n : ℕ) : ℕ := if i = 0 then n - 1 else min (i - 1) n

/-- Resolved stop of the python slice `a[i-1 : i+2]` on an axis of length `n`:
the nonnegative upper bound clamps to the length. -/
def pyHi (i n : ℕ) : ℕ := min (i + 2) n

/-- Index set selected by the slice `a[i-1 : i+2]` on an axis of length `n`. -/
def windowIdx (i n : ℕ) : Finset ℕ := Finset.Ico (pyLo i n) (pyHi i n)

/-- `num_alive` of `update_classical` (src/main.py line 55):
`np.sum(cur[r-1:r+2, c-1:c+2]) - cur[r, c]`. -/
def numAlive (cur : ℕ → ℕ → ℤ) (rows cols r c : ℕ) : ℤ :=
  (∑ i in windowIdx r rows, ∑ j in windowIdx c cols, cur i j) - cur r c

/-- Next-generation array of `update_classical` (src/main.py lines 52-67):
`nxt` starts at zero and a cell is set to 1 exactly in the `elif` branch. -/
def updateClassicalNext (cur : ℕ → ℕ → ℤ) (rows cols : ℕ) : ℕ → ℕ → ℤ :=
  fun r c =>
    if cur r c = 1 ∧ (numAlive cur rows cols r c < 2 ∨ 3 < numAlive cur rows cols r c) then 0
    else if (cur r c = 1 ∧ 2 ≤ numAlive cur rows cols r c ∧ numAlive cur rows cols r c ≤ 3) ∨
        (cur r c = 0 ∧ numAlive cur rows cols r c = 3) then 1
    else 0

/-- Per-cell drawing category chosen by `update_classical` (same branch
structure as `updateClassicalNext`, selecting the color instead). -/
def updateClassicalCat (cur : ℕ → ℕ → ℤ) (rows cols : ℕ) : ℕ → ℕ → CellCategory :=
  fun r c =>
    if cur r c = 1 ∧ (numAlive cur rows cols r c < 2 ∨ 3 < numAlive cur rows cols r c) then
      CellCategory.aboutToDie
    else if (cur r c = 1 ∧ 2 ≤ numAlive cur rows cols r c ∧ numAlive cur rows cols r c ≤ 3) ∨
        (cur r c = 0 ∧ numAlive cur rows cols r c = 3) then CellCategory.alive
    else CellCategory.background

/-- `GameOfLife.count_alive_neighbors` (tkinter source, lines 115-137):
loops over offsets `i, j ∈ {-1, 0, 1}`, skips the center, bounds-checks the
neighbor coordinates and counts cells equal to 1.  Argument order `(x, y)`
follows the source. -/
def countAliveNeighbors (board : ℕ → ℕ → ℕ) (rows cols : ℕ) (x y : ℕ) : ℕ :=
  ∑ i in Finset.Icc (-1 : ℤ) 1, ∑ j in Finset.Icc (-1 : ℤ) 1,
    if i = 0 ∧ j = 0 then 0
    else if 0 ≤ (x : ℤ) + j ∧ (x : ℤ) + j < (cols : ℤ) ∧ 0 ≤ (y : ℤ) + i ∧
        (y : ℤ) + i < (rows : ℤ) ∧ board ((y : ℤ) + i).toNat ((x : ℤ) + j).toNat = 1 then 1
    else 0

/-- Per-cell rule of `GameOfLife.calculate_next_generation` (tkinter source,
lines 87-112): the nested `if` structure on the current state and the
neighbor count. -/
def nextGenCell (cur n : ℕ) : ℕ :=
  if cur = 1 then (if n = 2 ∨ n = 3 then 1 else 0)
  else (if n = 3 then 1 else 0)

/-- `GameOfLife.calculate_next_generation`: the next board, one
`nextGenCell` per position, using `countAliveNeighbors`. -/
def calculateNextGeneration (board : ℕ → ℕ → ℕ) (rows cols : ℕ) : ℕ → ℕ → ℕ :=
  fun y x => nextGenCell (board y x) (countAliveNeighbors board rows cols x y)

/-- `patterns["blinker"] = np.array([[1,1,1]])` (src/main.py line 18):
a 1×3 stamp of ones, as a function with shape carried separately. -/
def blinkerPat : ℕ → ℕ → ℤ := fun r c => if r = 0 ∧ c < 3 then 1 else 0

/-- `place_pattern` (src/main.py lines 33-36): the numpy slice assignment
`cells[y:y+ph, x:x+pw] = pattern`.  Basic-slice assignment clips the target
region to the array (`min` with the dimensions) and then broadcasts the
pattern onto the clipped region: each pattern dimension must equal the
region's dimension or be 1, otherwise numpy raises a ValueError (modelled as
`none`); a size-1 pattern dimension is repeated, modelled by the `% ph` /
`% pw` index. -/
def placePattern (cells : ℕ → ℕ → ℤ) (rows cols : ℕ) (pat : ℕ → ℕ → ℤ)
    (ph pw : ℕ) (y x : ℕ) : Option (ℕ → ℕ → ℤ) :=
  if (ph = min (y + ph) rows - min y rows ∨ ph = 1) ∧
      (pw = min (x + pw) cols - min x cols ∨ pw = 1) then
    some (fun r c =>
      if min y rows ≤ r ∧ r < min (y + ph) rows ∧ min x cols ≤ c ∧ c < min (x + pw) cols then
        pat ((r - min y rows) % ph) ((c - min x cols) % pw)
      else cells r c)
  else none

/-- The two simulation modes of `main` (src/main.py). -/
inductive GameMode where
  | classical
  | quantum
  deriving DecidableEq

/-- `.upper()` applied to the raw mode input: uppercases every character
(the character-wise map that `String.toUpper` performs). -/
def strUpper (s : String) : String := String.mk (s.data.map Char.toUpper)

/-- Mode dispatch of `main` (src/main.py lines 122-136):
`mode = input(...).upper()` followed by `if mode == "C": ... else: ...`.
Every input whose uppercase form is not `"C"` falls into the quantum branch;
there is no rejection path. -/
def modeOf (s : String) : GameMode :=
  if strUpper s = "C" then GameMode.classical else GameMode.quantum

/-- Modelled from the spec: the *bounded* edge policy of section 9 ("cells
outside the grid simply do not exist, fewer neighbors at edges") — the sum of
the in-grid cells at Chebyshev distance at most 1 from `(r, c)`, the center
excluded.  Used to compare the source's window extraction against the spec's
description of bottom/right boundary behavior. -/
def mooreNeighborSum (g : ℕ → ℕ → ℤ) (rows cols r c : ℕ) : ℤ :=
  (∑ i in Finset.range rows, ∑ j in Finset.range cols,
    if r ≤ i + 1 ∧ i ≤ r + 1 ∧ c ≤ j + 1 ∧ j ≤ c + 1 then g i j else 0) - g r c

/-- Modelled from the spec: the *toroidal* edge policy of section 9 ("wrap on
all four sides") — the claim asserts that top/left boundary cells see
neighbors taken from the opposite edge, i.e. this wrapped count. -/
def wrapNeighborSum (g : ℕ → ℕ → ℤ) (rows cols r c : ℕ) : ℤ :=
  ∑ p in (Finset.Icc (-1 : ℤ) 1 ×ˢ Finset.Icc (-1 : ℤ) 1).erase (0, 0),
    g (((r : ℤ) + p.1) % (rows : ℤ)).toNat (((c : ℤ) + p.2) % (cols : ℤ)).toNat

/-- Horizontal blinker phase: an otherwise empty grid whose row `y` carries
ones in columns `x`, `x+1`, `x+2` (the result of stamping `blinkerPat` at
`(y, x)` on a zero grid). -/
def blinkerH (y x : ℕ) : ℕ → ℕ → ℤ := fun r c =>
  if r = y then (if x ≤ c ∧ c < x + 3 then 1 else 0) else 0

/-- Vertical blinker phase: an otherwise empty grid whose column `x+1`
carries ones in rows `y-1`, `y`, `y+1`. -/
def blinkerV (y x : ℕ) : ℕ → ℕ → ℤ := fun r c =>
  if c = x + 1 then (if y - 1 ≤ r ∧ r < y + 2 then 1 else 0) else 0

/-- `p_alive` of `update_quantum` (src/main.py line 88): `np.abs(alive_amp[r, c])**2`. -/
noncomputable def pAlive (alive : ℕ → ℕ → ℂ) (r c : ℕ) : ℝ :=
  Complex.abs (alive r c) ^ 2

/-- `num_alive_prob` of `update_quantum` (src/main.py lines 89-93):
`np.sum(np.abs(alive_amp[r-1:r+2, c-1:c+2])**2) - p_alive`. -/
noncomputable def numAliveProb (alive : ℕ → ℕ → ℂ) (rows cols r c : ℕ) : ℝ :=
  (∑ i in windowIdx r rows, ∑ j in windowIdx c cols, Complex.abs (alive i j) ^ 2) -
    pAlive alive r c

/-- `update_quantum` (src/main.py lines 73-115): returns
`(nxt_alive, nxt_dead, categories)`.  The `dead` argument appears in the
source only as `np.zeros_like(dead_amp)`, which reads its shape alone; the
shape is the explicit `rows`/`cols` pair here, so the values of `dead` are
never consulted. -/
noncomputable def updateQuantum (alive dead : ℕ → ℕ → ℂ) (rows cols : ℕ) :
    (ℕ → ℕ → ℂ) × (ℕ → ℕ → ℂ) × (ℕ → ℕ → CellCategory) :=
  (fun r c =>
    if 2 ≤ numAliveProb alive rows cols r c ∧ numAliveProb alive rows cols r c ≤ 3 then
      ((Real.sqrt 0.8 : ℝ) : ℂ)
    else ((Real.sqrt 0.2 : ℝ) : ℂ),
   fun r c =>
    if 2 ≤ numAliveProb alive rows cols r c ∧ numAliveProb alive rows cols r c ≤ 3 then
      ((Real.sqrt 0.2 : ℝ) : ℂ)
    else ((Real.sqrt 0.8 : ℝ) : ℂ),
   fun r c =>
    if 2 ≤ numAliveProb alive rows cols r c ∧ numAliveProb alive rows cols r c ≤ 3 then
      CellCategory.alive
    else if 0.5 < pAlive alive r c then CellCategory.aboutToDie
    else CellCategory.background)

/-! ### Helper lemmas -/

/-- Sum of the indicator of the band `[lo, hi)` over the slice `Ico a b`:
the number of indices in the intersection. -/
lemma sum_Ico_band (a b lo hi : ℕ) :
    ∑ j in Finset.Ico a b, (if lo ≤ j ∧ j < hi then (1 : ℤ) else 0) =
      ((min b hi - max a lo : ℕ) : ℤ) := by
  have h1 : ∀ j : ℕ, (lo ≤ j ∧ j < hi) = (j ∈ Finset.Ico lo hi) := by
    intro j; simp [Finset.mem_Ico]
  simp_rw [h1]
  rw [Finset.sum_ite_mem, Finset.Ico_inter_Ico, Finset.sum_const, Nat.card_Ico]
  simp [max_comm, min_comm]

/-- Closed form of the source's neighbor count on the horizontal blinker. -/
lemma numAlive_blinkerH (y x rows cols r c : ℕ) :
    numAlive (blinkerH y x) rows cols r c =
      (if pyLo r rows ≤ y ∧ y < pyHi r rows then
        ((min (pyHi c cols) (x + 3) - max (pyLo c cols) x : ℕ) : ℤ) else 0) -
        blinkerH y x r c := by
  unfold numAlive windowIdx
  congr 1
  have hrow : ∀ i, (∑ j in Finset.Ico (pyLo c cols) (pyHi c cols), blinkerH y x i j) =
      if i = y then ((min (pyHi c cols) (x + 3) - max (pyLo c cols) x : ℕ) : ℤ) else 0 := by
    intro i
    by_cases hi : i = y
    · subst hi
      have hb : ∀ j, blinkerH i x i j = if x ≤ j ∧ j < x + 3 then (1 : ℤ) else 0 := by
        intro j; simp [blinkerH]
      rw [Finset.sum_congr rfl fun j _ => hb j, sum_Ico_band, if_pos rfl]
    · simp [blinkerH, hi]
  rw [Finset.sum_congr rfl fun i _ => hrow i,
    Finset.sum_ite_eq' (Finset.Ico (pyLo r rows) (pyHi r rows)) y]
  simp [Finset.mem_Ico]

/-- Closed form of the source's neighbor count on the vertical blinker. -/
lemma numAlive_blinkerV (y x rows cols r c : ℕ) :
    numAlive (blinkerV y x) rows cols r c =
      (if pyLo c cols ≤ x + 1 ∧ x + 1 < pyHi c cols then
        ((min (pyHi r rows) (y + 2) - max (pyLo r rows) (y - 1) : ℕ) : ℤ) else 0) -
        blinkerV y x r c := by
  unfold numAlive windowIdx
  congr 1
  have hin : ∀ i, (∑ j in Finset.Ico (pyLo c cols) (pyHi c cols), blinkerV y x i j) =
      if pyLo c cols ≤ x + 1 ∧ x + 1 < pyHi c cols then
        (if y - 1 ≤ i ∧ i < y + 2 then (1 : ℤ) else 0) else 0 := by
    intro i
    unfold blinkerV
    rw [Finset.sum_ite_eq' (Finset.Ico (pyLo c cols) (pyHi c cols)) (x + 1)]
    simp [Finset.mem_Ico]
  rw [Finset.sum_congr rfl fun i _ => hin i]
  by_cases hP : pyLo c cols ≤ x + 1 ∧ x + 1 < pyHi c cols
  · simp only [if_pos hP]
    exact sum_Ico_band _ _ _ _
  · simp [hP]

/-- One classical step turns the horizontal blinker into the vertical one,
on every in-grid cell, provided the blinker sits clear of the boundary. -/
lemma step_blinkerH (rows cols y x r c : ℕ) (hy : 2 ≤ y) (hy2 : y + 2 ≤ rows)
    (hx : 1 ≤ x) (hx3 : x + 3 ≤ cols) (hr : r < rows) (hc : c < cols) :
    updateClassicalNext (blinkerH y x) rows cols r c = blinkerV y x r c := by
  unfold updateClassicalNext
  simp only [numAlive_blinkerH]
  unfold blinkerH blinkerV pyLo pyHi
  split_ifs <;> omega

/-- One classical step turns the vertical blinker back into the horizontal
one, on every in-grid cell, under the same margin conditions. -/
lemma step_blinkerV (rows cols y x r c : ℕ) (hy : 2 ≤ y) (hy2 : y + 2 ≤ rows)
    (hx : 1 ≤ x) (hx3 : x + 3 ≤ cols) (hr : r < rows) (hc : c < cols) :
    updateClassicalNext (blinkerV y x) rows cols r c = blinkerH y x r c := by
  unfold updateClassicalNext
  simp only [numAlive_blinkerV]
  unfold blinkerH blinkerV pyLo pyHi
  split_ifs <;> omega

/-- The neighbor count reads only in-grid cells, so it is unchanged when two
grids agree on all in-grid cells. -/
lemma numAlive_congrOn (g g' : ℕ → ℕ → ℤ) (rows cols : ℕ)
    (h : ∀ i, i < rows → ∀ j, j < cols → g i j = g' i j)
    (r c : ℕ) (hr : r < rows) (hc : c < cols) :
    numAlive g rows cols r c = numAlive g' rows cols r c := by
  unfold numAlive
  congr 1
  · refine Finset.sum_congr rfl fun i hi => Finset.sum_congr rfl fun j hj => ?_
    rw [windowIdx, Finset.mem_Ico, pyHi] at hi hj
    exact h i (by omega) j (by omega)
  · exact h r hr c hc

/-- The classical step reads only in-grid cells, so it is unchanged on every
in-grid cell when two grids agree on all in-grid cells. -/
lemma updateClassicalNext_congrOn (g g' : ℕ → ℕ → ℤ) (rows cols : ℕ)
    (h : ∀ i, i < rows → ∀ j, j < cols → g i j = g' i j)
    (r c : ℕ) (hr : r < rows) (hc : c < cols) :
    updateClassicalNext g rows cols r c = updateClassicalNext g' rows cols r c := by
  unfold updateClassicalNext
  rw [numAlive_congrOn g g' rows cols h r c hr hc, h r hr c hc]

/-- Stamping the blinker onto a zero grid inside the bounds yields the
horizontal blinker grid. -/
lemma placePattern_blinker (rows cols y x : ℕ) (h1 : y + 1 ≤ rows) (h2 : x + 3 ≤ cols) :
    placePattern (fun _ _ => 0) rows cols blinkerPat 1 3 y x = some (blinkerH y x) := by
  unfold placePattern
  rw [if_pos (by omega)]
  refine congrArg some (funext fun r => funext fun c => ?_)
  unfold blinkerPat blinkerH
  beta_reduce
  split_ifs <;> omega

/-- Away from row 0 and column 0 the source's slice window coincides with the
bounded ("cells outside the grid do not exist") Moore neighborhood. -/
lemma numAlive_eq_moore (g : ℕ → ℕ → ℤ) (rows cols r c : ℕ)
    (hr1 : 1 ≤ r) (hc1 : 1 ≤ c) (hr : r < rows) (hc : c < cols) :
    numAlive g rows cols r c = mooreNeighborSum g rows cols r c := by
  unfold numAlive mooreNeighborSum windowIdx
  congr 1
  have hpLr : pyLo r rows = r - 1 := by unfold pyLo; split_ifs <;> omega
  have hpLc : pyLo c cols = c - 1 := by unfold pyLo; split_ifs <;> omega
  have hinner : ∀ i, (∑ j in Finset.range cols,
      if r ≤ i + 1 ∧ i ≤ r + 1 ∧ c ≤ j + 1 ∧ j ≤ c + 1 then g i j else 0) =
      if r ≤ i + 1 ∧ i ≤ r + 1 then
        ∑ j in Finset.Ico (pyLo c cols) (pyHi c cols), g i j else 0 := by
    intro i
    by_cases hRi : r ≤ i + 1 ∧ i ≤ r + 1
    · rw [if_pos hRi]
      have hC : ∀ j : ℕ, (r ≤ i + 1 ∧ i ≤ r + 1 ∧ c ≤ j + 1 ∧ j ≤ c + 1) =
          (j ∈ Finset.Icc (c - 1) (c + 1)) := by
        intro j
        simp only [Finset.mem_Icc, eq_iff_iff]
        constructor
        · rintro ⟨-, -, h1, h2⟩; omega
        · intro hj; exact ⟨hRi.1, hRi.2, by omega, by omega⟩
      simp_rw [hC]
      rw [Finset.sum_ite_mem]
      refine Finset.sum_congr ?_ fun j _ => rfl
      ext j
      simp only [Finset.mem_inter, Finset.mem_range, Finset.mem_Icc, Finset.mem_Ico]
      rw [hpLc]
      unfold pyHi
      omega
    · rw [if_neg hRi]
      refine Finset.sum_eq_zero fun j _ => ?_
      rw [if_neg]
      tauto
  symm
  rw [Finset.sum_congr rfl fun i _ => hinner i]
  have hR : ∀ i : ℕ, (r ≤ i + 1 ∧ i ≤ r + 1) = (i ∈ Finset.Icc (r - 1) (r + 1)) := by
    intro i
    simp only [Finset.mem_Icc, eq_iff_iff]
    omega
  simp_rw [hR]
  rw [Finset.sum_ite_mem]
  refine Finset.sum_congr ?_ fun i _ => rfl
  ext i
  simp only [Finset.mem_inter, Finset.mem_range, Finset.mem_Icc, Finset.mem_Ico]
  rw [hpLr]
  unfold pyHi
  omega

/-! ### Claims -/

/-- Claim C1: for every grid with cell values in `{0, 1}`, both classical
steps produce a next grid in which a cell is alive exactly when it was alive
with 2 or 3 counted alive neighbors, or dead with exactly 3 counted alive
neighbors; in all other cases the next cell is dead.  Stated for
`update_classical` (with its neighbor count `numAlive`) and for the tkinter
`calculate_next_generation` (with its neighbor count `countAliveNeighbors`). -/
theorem classical_rule_application (g : ℕ → ℕ → ℤ) (rows cols r c : ℕ)
    (hg : g r c = 0 ∨ g r c = 1)
    (b : ℕ → ℕ → ℕ) (rows' cols' y x : ℕ) (hb : b y x = 0 ∨ b y x = 1) :
    (updateClassicalNext g rows cols r c = 1 ↔
      (g r c = 1 ∧ (numAlive g rows cols r c = 2 ∨ numAlive g rows cols r c = 3)) ∨
      (g r c = 0 ∧ numAlive g rows cols r c = 3)) ∧
    (updateClassicalNext g rows cols r c = 0 ∨ updateClassicalNext g rows cols r c = 1) ∧
    (calculateNextGeneration b rows' cols' y x = 1 ↔
      (b y x = 1 ∧ (countAliveNeighbors b rows' cols' x y = 2 ∨
        countAliveNeighbors b rows' cols' x y = 3)) ∨
      (b y x = 0 ∧ countAliveNeighbors b rows' cols' x y = 3)) ∧
    (calculateNextGeneration b rows' cols' y x = 0 ∨
      calculateNextGeneration b rows' cols' y x = 1) := by
  refine ⟨?_, ?_, ?_, ?_⟩
  · unfold updateClassicalNext
    split_ifs <;> omega
  · unfold updateClassicalNext
    split_ifs <;> omega
  · unfold calculateNextGeneration nextGenCell
    split_ifs <;> first | omega | simp_all
  · unfold calculateNextGeneration nextGenCell
    split_ifs <;> first | omega | simp_all

/-- Witness for C1 at a concrete input: the all-dead 3×3 grid and board,
cell (1,1). -/
theorem classical_rule_application_witness :
    (((fun _ _ => (0 : ℤ)) 1 1 = 0 ∨ (fun _ _ => (0 : ℤ)) 1 1 = 1) ∧
     ((fun _ _ => (0 : ℕ)) 1 1 = 0 ∨ (fun _ _ => (0 : ℕ)) 1 1 = 1)) ∧
    ((updateClassicalNext (fun _ _ => 0) 3 3 1 1 = 1 ↔
      ((fun _ _ => (0 : ℤ)) 1 1 = 1 ∧ (numAlive (fun _ _ => 0) 3 3 1 1 = 2 ∨
        numAlive (fun _ _ => 0) 3 3 1 1 = 3)) ∨
      ((fun _ _ => (0 : ℤ)) 1 1 = 0 ∧ numAlive (fun _ _ => 0) 3 3 1 1 = 3)) ∧
    (updateClassicalNext (fun _ _ => 0) 3 3 1 1 = 0 ∨
      updateClassicalNext (fun _ _ => 0) 3 3 1 1 = 1) ∧
    (calculateNextGeneration (fun _ _ => 0) 3 3 1 1 = 1 ↔
      ((fun _ _ => (0 : ℕ)) 1 1 = 1 ∧ (countAliveNeighbors (fun _ _ => 0) 3 3 1 1 = 2 ∨
        countAliveNeighbors (fun _ _ => 0) 3 3 1 1 = 3)) ∨
      ((fun _ _ => (0 : ℕ)) 1 1 = 0 ∧ countAliveNeighbors (fun _ _ => 0) 3 3 1 1 = 3)) ∧
    (calculateNextGeneration (fun _ _ => 0) 3 3 1 1 = 0 ∨
      calculateNextGeneration (fun _ _ => 0) 3 3 1 1 = 1)) :=
  ⟨⟨Or.inl rfl, Or.inl rfl⟩,
    classical_rule_application (fun _ _ => 0) 3 3 1 1 (Or.inl rfl)
      (fun _ _ => 0) 3 3 1 1 (Or.inl rfl)⟩

/-- Claim C2: the quantum step sets the next alive amplitude to `√0.8` and
the next dead amplitude to `√0.2` with category `alive` when the computed
expected alive-neighbor mass (window sum of `|alive_amp|²` minus the center's
`|alive_amp|²`) lies in `[2, 3]`; otherwise `√0.2` / `√0.8` with category
`about-to-die` when `|alive_amp[r,c]|² > 0.5` and `background` otherwise. -/
theorem quantum_rule_application (alive dead : ℕ → ℕ → ℂ) (rows cols r c : ℕ) :
    (updateQuantum alive dead rows cols).1 r c =
      (if 2 ≤ numAliveProb alive rows cols r c ∧ numAliveProb alive rows cols r c ≤ 3
        then ((Real.sqrt 0.8 : ℝ) : ℂ) else ((Real.sqrt 0.2 : ℝ) : ℂ)) ∧
    (updateQuantum alive dead rows cols).2.1 r c =
      (if 2 ≤ numAliveProb alive rows cols r c ∧ numAliveProb alive rows cols r c ≤ 3
        then ((Real.sqrt 0.2 : ℝ) : ℂ) else ((Real.sqrt 0.8 : ℝ) : ℂ)) ∧
    (updateQuantum alive dead rows cols).2.2 r c =
      (if 2 ≤ numAliveProb alive rows cols r c ∧ numAliveProb alive rows cols r c ≤ 3
        then CellCategory.alive
        else if 0.5 < Complex.abs (alive r c) ^ 2 then CellCategory.aboutToDie
        else CellCategory.background) :=
  ⟨rfl, rfl, rfl⟩

/-- Claim C3: for every input amplitude pair, normalized or not, every cell
of the quantum step's output satisfies `|next_alive|² + |next_dead|² = 1`
exactly. -/
theorem quantum_normalization (alive dead : ℕ → ℕ → ℂ) (rows cols r c : ℕ) :
    Complex.abs ((updateQuantum alive dead rows cols).1 r c) ^ 2 +
      Complex.abs ((updateQuantum alive dead rows cols).2.1 r c) ^ 2 = 1 := by
  simp only [updateQuantum]
  split_ifs <;>
    rw [Complex.abs_ofReal, Complex.abs_ofReal, abs_of_nonneg (Real.sqrt_nonneg _),
      abs_of_nonneg (Real.sqrt_nonneg _), Real.sq_sqrt (by norm_num),
      Real.sq_sqrt (by norm_num)] <;>
    norm_num

/-- Claim C8: the quantum step discards phase: two alive-amplitude inputs
with cell-by-cell equal magnitudes produce identical next amplitude arrays
and identical categories. -/
theorem quantum_phase_invariance (a1 a2 dead : ℕ → ℕ → ℂ) (rows cols : ℕ)
    (h : ∀ r c, Complex.abs (a1 r c) = Complex.abs (a2 r c)) :
    updateQuantum a1 dead rows cols = updateQuantum a2 dead rows cols := by
  have hp : ∀ r c, pAlive a1 r c = pAlive a2 r c := by
    intro r c; unfold pAlive; rw [h]
  have hm : ∀ r c, numAliveProb a1 rows cols r c = numAliveProb a2 rows cols r c := by
    intro r c
    unfold numAliveProb
    rw [hp]
    congr 1
    exact Finset.sum_congr rfl fun i _ => Finset.sum_congr rfl fun j _ => by rw [h]
  unfold updateQuantum
  simp only [Prod.mk.injEq]
  refine ⟨funext fun r => funext fun c => ?_, funext fun r => funext fun c => ?_,
    funext fun r => funext fun c => ?_⟩
  · rw [hm r c]
  · rw [hm r c]
  · rw [hm r c, hp r c]

/-- Witness for C8 at a concrete input: constant grids `I` and `1`, both of
magnitude one everywhere. -/
theorem quantum_phase_invariance_witness :
    (∀ r c : ℕ, Complex.abs ((fun _ _ => Complex.I) r c) =
      Complex.abs ((fun _ _ => (1 : ℂ)) r c)) ∧
    updateQuantum (fun _ _ => Complex.I) (fun _ _ => 0) 2 2 =
      updateQuantum (fun _ _ => (1 : ℂ)) (fun _ _ => 0) 2 2 :=
  ⟨fun r c => by simp, quantum_phase_invariance _ _ _ 2 2 (fun r c => by simp)⟩

/-- Claim C9: the quantum step never reads the values of the dead-amplitude
argument (the source touches it only through `np.zeros_like`, i.e. its
shape), so its output is identical for any two dead-amplitude inputs. -/
theorem quantum_dead_amp_irrelevance (alive d1 d2 : ℕ → ℕ → ℂ) (rows cols : ℕ) :
    updateQuantum alive d1 rows cols = updateQuantum alive d2 rows cols := rfl

/-- Claim C6 (code bug): the mode selector never rejects anything — every
input, valid or not, maps to one of the two modes, and every input whose
uppercase form differs from `"C"` silently selects quantum mode. -/
theorem mode_dispatch_silent_default :
    (∀ s : String, modeOf s = GameMode.classical ∨ modeOf s = GameMode.quantum) ∧
    modeOf "X" = GameMode.quantum ∧ modeOf "banana" = GameMode.quantum ∧
    modeOf "Quantum" = GameMode.quantum ∧ modeOf "q" = GameMode.quantum ∧
    modeOf "c" = GameMode.classical ∧ modeOf "C" = GameMode.classical := by
  refine ⟨fun s => ?_, by decide, by decide, by decide, by decide, by decide, by decide⟩
  unfold modeOf
  split_ifs <;> simp

/-- Claim C4 (code bug): placing the 1×3 blinker on a 5×5 grid at
`top_left = (5, 0)` overflows the grid, yet `place_pattern` silently
succeeds without touching the grid (the clipped region is empty and the
pattern broadcasts onto it), raising nothing; at `top_left = (2, 3)` the
overflow surfaces only as a numpy broadcast `ValueError` (`none`), not as an
explicit `OutOfBounds` validation. -/
theorem place_pattern_out_of_bounds_silent :
    placePattern (fun _ _ => 0) 5 5 blinkerPat 1 3 5 0 = some (fun _ _ => 0) ∧
    placePattern (fun _ _ => 0) 5 5 blinkerPat 1 3 2 3 = none := by
  constructor
  · unfold placePattern
    rw [if_pos (by omega)]
    refine congrArg some (funext fun r => funext fun c => ?_)
    rw [if_neg (by omega)]
  · unfold placePattern
    rw [if_neg (by omega)]

/-- On an axis of length at least 3, the slice `[-1 : 2]` produced at index 0
selects nothing: its resolved start `n - 1` is at or beyond its stop 2. -/
lemma windowIdx_zero_empty (n : ℕ) (h : 3 ≤ n) : windowIdx 0 n = ∅ := by
  unfold windowIdx pyLo pyHi
  rw [if_pos rfl]
  exact Finset.Ico_eq_empty (by omega)

/-- On grids with at least 3 rows and columns, the window of any cell in
row 0 or column 0 contributes nothing, so the counted sum is minus the
center value. -/
lemma numAlive_boundary (g : ℕ → ℕ → ℤ) (rows cols r c : ℕ)
    (hrows : 3 ≤ rows) (hcols : 3 ≤ cols) (hrc : r = 0 ∨ c = 0) :
    numAlive g rows cols r c = -(g r c) := by
  unfold numAlive
  rcases hrc with h | h
  · subst h
    rw [windowIdx_zero_empty rows hrows, Finset.sum_empty]
    ring
  · subst h
    rw [windowIdx_zero_empty cols hcols]
    simp

/-- Quantum analogue of `numAlive_boundary`: the expected alive-neighbor
mass of a cell in row 0 or column 0 is minus its own alive probability. -/
lemma numAliveProb_boundary (alive : ℕ → ℕ → ℂ) (rows cols r c : ℕ)
    (hrows : 3 ≤ rows) (hcols : 3 ≤ cols) (hrc : r = 0 ∨ c = 0) :
    numAliveProb alive rows cols r c = -(pAlive alive r c) := by
  unfold numAliveProb
  rcases hrc with h | h
  · subst h
    rw [windowIdx_zero_empty rows hrows, Finset.sum_empty]
    ring
  · subst h
    rw [windowIdx_zero_empty cols hcols]
    simp

/-- Claim C5 (amended): on grids with at least 3 rows and columns, a cell in
row 0 or column 0 gets an *empty* slice window — it sees no neighbors at
all, wrapped or otherwise, and its count degenerates to minus the center
value — while every cell with `r ≥ 1` and `c ≥ 1`, including all of the
bottom and right boundary, sees exactly the in-grid (clamped) Moore
neighborhood. -/
theorem neighbor_window_edge_policy (g : ℕ → ℕ → ℤ) (rows cols r c : ℕ)
    (hrows : 3 ≤ rows) (hcols : 3 ≤ cols) (hr : r < rows) (hc : c < cols) :
    (r = 0 → windowIdx r rows = ∅) ∧
    (c = 0 → windowIdx c cols = ∅) ∧
    (r = 0 ∨ c = 0 → numAlive g rows cols r c = -(g r c)) ∧
    (1 ≤ r → 1 ≤ c → numAlive g rows cols r c = mooreNeighborSum g rows cols r c) := by
  refine ⟨?_, ?_, ?_, ?_⟩
  · rintro rfl; exact windowIdx_zero_empty rows hrows
  · rintro rfl; exact windowIdx_zero_empty cols hcols
  · exact numAlive_boundary g rows cols r c hrows hcols
  · intro hr1 hc1; exact numAlive_eq_moore g rows cols r c hr1 hc1 hr hc

/-- Counterexample to C5 as stated: on a 4×4 grid whose bottom row is all
alive, the top-boundary cell (0,1) sees *no* neighbors (count 0), although
the wrap-to-the-opposite-edge policy the claim describes would see the 3
alive bottom-boundary cells. -/
theorem neighbor_window_edge_policy_cex :
    numAlive (fun r _ => if r = 3 then (1 : ℤ) else 0) 4 4 0 1 = 0 ∧
    wrapNeighborSum (fun r _ => if r = 3 then (1 : ℤ) else 0) 4 4 0 1 = 3 := by
  decide

/-- Witness for the amended C5 at a concrete input: the 4×4 bottom-row grid,
cell (0,1). -/
theorem neighbor_window_edge_policy_witness :
    ((3 : ℕ) ≤ 4 ∧ (3 : ℕ) ≤ 4 ∧ (0 : ℕ) < 4 ∧ (1 : ℕ) < 4) ∧
    (((0 : ℕ) = 0 → windowIdx 0 4 = ∅) ∧
     ((1 : ℕ) = 0 → windowIdx 1 4 = ∅) ∧
     ((0 : ℕ) = 0 ∨ (1 : ℕ) = 0 →
       numAlive (fun r _ => if r = 3 then (1 : ℤ) else 0) 4 4 0 1 =
         -((fun r _ => if r = 3 then (1 : ℤ) else 0) 0 1)) ∧
     (1 ≤ (0 : ℕ) → 1 ≤ (1 : ℕ) →
       numAlive (fun r _ => if r = 3 then (1 : ℤ) else 0) 4 4 0 1 =
         mooreNeighborSum (fun r _ => if r = 3 then (1 : ℤ) else 0) 4 4 0 1)) :=
  ⟨⟨by decide, by decide, by decide, by decide⟩,
    neighbor_window_edge_policy (fun r _ => if r = 3 then (1 : ℤ) else 0) 4 4 0 1
      (by decide) (by decide) (by decide) (by decide)⟩

/-- Claim C10 (amended): on grids with at least 3 rows and columns, every
cell in row 0 or column 0 receives an empty neighbor window, so its
classical count is `-cur[r,c]` (hence an alive top/left-boundary cell dies)
and its quantum expected mass is `-|alive_amp[r,c]|²` (hence the cell takes
the dead-biased branch `√0.2` / `√0.8` regardless of its actual
neighbors). -/
theorem boundary_empty_window (g : ℕ → ℕ → ℤ) (alive dead : ℕ → ℕ → ℂ)
    (rows cols r c : ℕ) (hrows : 3 ≤ rows) (hcols : 3 ≤ cols)
    (hr : r < rows) (hc : c < cols) (hrc : r = 0 ∨ c = 0) :
    numAlive g rows cols r c = -(g r c) ∧
    (g r c = 1 → updateClassicalNext g rows cols r c = 0) ∧
    numAliveProb alive rows cols r c = -(Complex.abs (alive r c) ^ 2) ∧
    (updateQuantum alive dead rows cols).1 r c = ((Real.sqrt 0.2 : ℝ) : ℂ) ∧
    (updateQuantum alive dead rows cols).2.1 r c = ((Real.sqrt 0.8 : ℝ) : ℂ) := by
  have hna := numAlive_boundary g rows cols r c hrows hcols hrc
  have hnp := numAliveProb_boundary alive rows cols r c hrows hcols hrc
  have hdead : ¬(2 ≤ numAliveProb alive rows cols r c ∧
      numAliveProb alive rows cols r c ≤ 3) := by
    rw [hnp]
    unfold pAlive
    intro hcontra
    have h0 : (0 : ℝ) ≤ Complex.abs (alive r c) ^ 2 := sq_nonneg _
    linarith [hcontra.1]
  refine ⟨hna, ?_, hnp, ?_, ?_⟩
  · intro h1
    unfold updateClassicalNext
    rw [if_pos ⟨h1, by omega⟩]
  · simp only [updateQuantum]
    rw [if_neg hdead]
  · simp only [updateQuantum]
    rw [if_neg hdead]

/-- Counterexample to C10 as stated: on a 2×4 all-alive grid the slice at
top-boundary cell (0,1) is *not* empty (the wrapped lower bound lands in
row 1), the count is 2 rather than `-cur`, and the alive top-boundary cell
survives the classical step. -/
theorem boundary_empty_window_cex :
    numAlive (fun _ _ => 1) 2 4 0 1 = 2 ∧
    updateClassicalNext (fun _ _ => 1) 2 4 0 1 = 1 := by
  decide

/-- Witness for the amended C10 at a concrete input: the all-alive 3×3 grid
with zero amplitudes, cell (0,1). -/
theorem boundary_empty_window_witness :
    ((3 : ℕ) ≤ 3 ∧ (3 : ℕ) ≤ 3 ∧ (0 : ℕ) < 3 ∧ (1 : ℕ) < 3 ∧
      ((0 : ℕ) = 0 ∨ (1 : ℕ) = 0)) ∧
    (numAlive (fun _ _ => 1) 3 3 0 1 = -((fun _ _ => (1 : ℤ)) 0 1) ∧
     ((fun _ _ => (1 : ℤ)) 0 1 = 1 → updateClassicalNext (fun _ _ => 1) 3 3 0 1 = 0) ∧
     numAliveProb (fun _ _ => 0) 3 3 0 1 = -(Complex.abs ((fun _ _ => (0 : ℂ)) 0 1) ^ 2) ∧
     (updateQuantum (fun _ _ => 0) (fun _ _ => 0) 3 3).1 0 1 = ((Real.sqrt 0.2 : ℝ) : ℂ) ∧
     (updateQuantum (fun _ _ => 0) (fun _ _ => 0) 3 3).2.1 0 1 = ((Real.sqrt 0.8 : ℝ) : ℂ)) :=
  ⟨⟨by decide, by decide, by decide, by decide, Or.inl rfl⟩,
    boundary_empty_window (fun _ _ => 1) (fun _ _ => 0) (fun _ _ => 0) 3 3 0 1
      (by decide) (by decide) (by decide) (by decide) (Or.inl rfl)⟩

/-- Claim C7: seeding a large-enough empty grid with the blinker, placed
clear of the boundary (two rows below the top, one column right of the
left, one cell of margin to the bottom and right edges), and applying the
classical step twice returns every in-grid cell to its original state. -/
theorem blinker_period_two (rows cols y x : ℕ) (g : ℕ → ℕ → ℤ)
    (hy : 2 ≤ y) (hy2 : y + 2 ≤ rows) (hx : 1 ≤ x) (hx3 : x + 3 ≤ cols)
    (hseed : placePattern (fun _ _ => 0) rows cols blinkerPat 1 3 y x = some g) :
    ∀ r, r < rows → ∀ c, c < cols →
      updateClassicalNext (updateClassicalNext g rows cols) rows cols r c = g r c := by
  have hg : g = blinkerH y x := by
    have hpp := placePattern_blinker rows cols y x (by omega) (by omega)
    rw [hseed] at hpp
    exact Option.some_inj.mp hpp
  subst hg
  intro r hr c hc
  have h1 : ∀ i, i < rows → ∀ j, j < cols →
      updateClassicalNext (blinkerH y x) rows cols i j = blinkerV y x i j :=
    fun i hi j hj => step_blinkerH rows cols y x i j hy hy2 hx hx3 hi hj
  rw [updateClassicalNext_congrOn _ (blinkerV y x) rows cols h1 r c hr hc]
  exact step_blinkerV rows cols y x r c hy hy2 hx hx3 hr hc

/-- Witness for C7 at a concrete input: a 5×5 empty grid with the blinker
stamped at (2, 1). -/
theorem blinker_period_two_witness :
    ((2 : ℕ) ≤ 2 ∧ 2 + 2 ≤ (5 : ℕ) ∧ (1 : ℕ) ≤ 1 ∧ 1 + 3 ≤ (5 : ℕ) ∧
      placePattern (fun _ _ => 0) 5 5 blinkerPat 1 3 2 1 = some (blinkerH 2 1)) ∧
    (∀ r, r < 5 → ∀ c, c < 5 →
      updateClassicalNext (updateClassicalNext (blinkerH 2 1) 5 5) 5 5 r c =
        blinkerH 2 1 r c) :=
  ⟨⟨by decide, by decide, by decide, by decide,
    placePattern_blinker 5 5 2 1 (by decide) (by decide)⟩,
    blinker_period_two 5 5 2 1 (blinkerH 2 1) (by decide) (by decide) (by decide) (by decide)
      (placePattern_blinker 5 5 2 1 (by decide) (by decide))⟩
